import Mathlib

/-!
RPR CIS Dashboard: the three DOM event handlers of `ui/static/js/app.js`.

A shallow embedding of the handlers installed on `DOMContentLoaded`:

* the `change` handler of every `input[type="file"]` (upload size guard),
* the `submit` handler of every `form` (required-field guard),
* the `input` handler of every `textarea` (autosizer).

Every handler is a function from what it reads of the DOM to the ordered trace of
observable effects it performs (or to the exception it throws).
-/

set_option autoImplicit false

namespace AppJs

/-! ## Data model -/

/-- One entry of a `FileList`: the two properties the script reads. -/
structure File where
  name : String
  size : Nat
  deriving DecidableEq, Repr

/-- What a DOM element's `value` property may hold: `undefined` for elements without
such a property (a `div`), a string for form controls, a number for `li`, `meter`
and `progress`. -/
inductive JsVal where
  | undefined : JsVal
  | str : String → JsVal
  | num : Int → JsVal
  deriving DecidableEq, Repr

/-- An element matched by `form.querySelectorAll('[required]')`. -/
structure Field where
  value : JsVal
  deriving DecidableEq, Repr

/-- An uncaught JavaScript exception. -/
inductive JsError where
  | typeError : JsError
  deriving DecidableEq, Repr

deriving instance DecidableEq for Except

/-- The observable actions of the handlers, in the order they are performed. -/
inductive Effect where
  /-- Call `alert(msg)`. -/
  | alert : String → Effect
  /-- Assign `e.target.value = v`. -/
  | setValue : String → Effect
  /-- Call `console.log(args...)`. -/
  | log : List String → Effect
  /-- Call `e.preventDefault()`. -/
  | preventDefault : Effect
  /-- Call `field.focus()` on the field at the given position of `requiredFields`. -/
  | focus : Nat → Effect
  deriving DecidableEq, Repr

/-- Is the effect an `alert(...)` call. -/
def Effect.isAlert : Effect → Bool
  | .alert _ => true
  | _ => false

/-- Is the effect an assignment to `e.target.value`. -/
def Effect.isSetValue : Effect → Bool
  | .setValue _ => true
  | _ => false

/-- Is the effect a `console.log(...)` call. -/
def Effect.isLog : Effect → Bool
  | .log _ => true
  | _ => false

/-- Is the effect a `field.focus()` call. -/
def Effect.isFocus : Effect → Bool
  | .focus _ => true
  | _ => false

/-! ## Upload size guard (`change` handler, lines 8-25) -/

/-- The constant `const maxSize = 16 * 1024 * 1024`. -/
def maxSize : Nat := 16 * 1024 * 1024

/-- The template literal passed to `alert` for an oversized file. -/
def tooLargeMessage (name : String) : String :=
  "File " ++ name ++ " is too large. Maximum size is 16MB."

/-- The call `Array.from(e.target.files)`: `files` is a `FileList`, or `null` when the
target is not in the file-upload state, and `Array.from(null)` throws. -/
def arrayFrom : Option (List File) → Except JsError (List File)
  | some fs => .ok fs
  | none => .error .typeError

/-- The loop `for (let file of files)`: `some effects` when an iteration returns from the
handler, `none` when the loop runs to its end. -/
def changeLoop : List File → Option (List Effect)
  | [] => none
  | file :: rest =>
    if file.size > maxSize then
      some [.alert (tooLargeMessage file.name), .setValue ""]
    else
      changeLoop rest

/-- The listener added to every file input for `change`. -/
def changeHandler (targetFiles : Option (List File)) : Except JsError (List Effect) :=
  match arrayFrom targetFiles with
  | .error err => .error err
  | .ok files =>
    match changeLoop files with
    | some effects => .ok effects
    | none =>
      if files.length > 0 then
        .ok [.log ["Selected files:", ", ".intercalate (files.map File.name)]]
      else
        .ok []

/-! ## Required-field guard (`submit` handler, lines 32-43) -/

/-- The ECMAScript `WhiteSpace` and `LineTerminator` code points, which
`String.prototype.trim` strips. -/
def isJsWhiteSpace (c : Char) : Bool :=
  let n := c.toNat
  n == 0x09 || n == 0x0A || n == 0x0B || n == 0x0C || n == 0x0D || n == 0x20 ||
  n == 0xA0 || n == 0x1680 || (0x2000 ≤ n && n ≤ 0x200A) || n == 0x2028 ||
  n == 0x2029 || n == 0x202F || n == 0x205F || n == 0x3000 || n == 0xFEFF

/-- The built-in `String.prototype.trim`. -/
def jsTrim (s : String) : String :=
  ⟨((s.data.dropWhile isJsWhiteSpace).reverse.dropWhile isJsWhiteSpace).reverse⟩

/-- The expression `field.value.trim()`: reading `trim` of `undefined` throws, and a
number has no `trim` method, so calling it throws. -/
def valueTrim : JsVal → Except JsError String
  | .str s => .ok (jsTrim s)
  | .undefined => .error .typeError
  | .num _ => .error .typeError

/-- The fixed message of the required-field guard. -/
def requiredMessage : String := "Please fill in all required fields."

/-- The loop `for (let field of requiredFields)`, with the position of the current
field in `requiredFields`. -/
def submitLoop : Nat → List Field → Except JsError (List Effect)
  | _, [] => .ok []
  | i, field :: rest =>
    match valueTrim field.value with
    | .error err => .error err
    | .ok trimmed =>
      if trimmed = "" then
        .ok [.alert requiredMessage, .preventDefault, .focus i]
      else
        submitLoop (i + 1) rest

/-- The listener added to every form for `submit`; its argument is the result of
`form.querySelectorAll('[required]')`, in document order. -/
def submitHandler (requiredFields : List Field) : Except JsError (List Effect) :=
  submitLoop 0 requiredFields

/-! ## Textarea autosizer (`input` handler, lines 50-53) -/

/-- A textarea: its content and the inline `style.height`. -/
structure Textarea where
  value : String
  styleHeight : String
  deriving DecidableEq, Repr

/-- The listener added to every textarea for `input`. The layout engine's `scrollHeight`
getter is a parameter: it is computed by the browser from the element's current state. -/
def textareaInputHandler (scrollHeight : Textarea → Nat) (self : Textarea) : Textarea :=
  let self1 := { self with styleHeight := "auto" }
  { self1 with styleHeight := toString (scrollHeight self1) ++ "px" }

/-! ## Derived observations -/

/-- The handler rejected the selection: it notified and assigned the input's value. -/
def rejected : Except JsError (List Effect) → Bool
  | .ok effects => effects.any Effect.isAlert && effects.any Effect.isSetValue
  | .error _ => false

/-- The largest `size` of a selection (`0` for the empty one). -/
def maxFileSize (files : List File) : Nat :=
  (files.map File.size).foldr max 0

/-- The field's value is a string that is empty once trimmed. -/
def Field.isBlank (field : Field) : Bool :=
  match field.value with
  | .str s => decide (jsTrim s = "")
  | _ => false

/-- The field's value is a string that is non-empty once trimmed. -/
def Field.isFilled (field : Field) : Bool :=
  match field.value with
  | .str s => decide (jsTrim s ≠ "")
  | _ => false

/-- The field's `value` is a string, so that `field.value.trim()` can be evaluated. -/
def Field.hasStringValue (field : Field) : Bool :=
  match field.value with
  | .str _ => true
  | _ => false

/-! ## Lemmas on the two loops -/

theorem changeLoop_eq_none_iff (files : List File) :
    changeLoop files = none ↔ ∀ f ∈ files, f.size ≤ maxSize := by
  induction files with
  | nil => simp [changeLoop]
  | cons f rest ih =>
    by_cases h : f.size > maxSize
    · simp only [changeLoop, h, if_true, List.mem_cons, forall_eq_or_imp]
      constructor
      · intro hc; cases hc
      · intro hc; omega
    · simp only [changeLoop, h, if_false, List.mem_cons, forall_eq_or_imp, ih]
      constructor
      · intro hc; exact ⟨by omega, hc⟩
      · intro hc; exact hc.2

theorem changeLoop_append_oversized (pre post : List File) (file : File)
    (hpre : ∀ g ∈ pre, g.size ≤ maxSize) (hfile : file.size > maxSize) :
    changeLoop (pre ++ file :: post) =
      some [.alert (tooLargeMessage file.name), .setValue ""] := by
  induction pre with
  | nil => simp [changeLoop, hfile]
  | cons g rest ih =>
    have hg : ¬ g.size > maxSize := by
      have := hpre g (List.mem_cons_self _ _); omega
    have hrest : ∀ x ∈ rest, x.size ≤ maxSize := fun x hx => hpre x (List.mem_cons_of_mem _ hx)
    simp only [List.cons_append, changeLoop, hg, if_false]
    exact ih hrest

theorem exists_first_oversized (files : List File) (h : ∃ f ∈ files, f.size > maxSize) :
    ∃ pre file post, files = pre ++ file :: post ∧ (∀ g ∈ pre, g.size ≤ maxSize) ∧
      file.size > maxSize := by
  induction files with
  | nil => obtain ⟨f, hf, _⟩ := h; cases hf
  | cons f rest ih =>
    by_cases hf : f.size > maxSize
    · exact ⟨[], f, rest, rfl, by simp, hf⟩
    · have hrest : ∃ x ∈ rest, x.size > maxSize := by
        obtain ⟨x, hx, hxs⟩ := h
        rcases List.mem_cons.mp hx with rfl | hx
        · exact absurd hxs hf
        · exact ⟨x, hx, hxs⟩
      obtain ⟨pre, file, post, he, hp, hs⟩ := ih hrest
      refine ⟨f :: pre, file, post, by simp [he], ?_, hs⟩
      intro g hg
      rcases List.mem_cons.mp hg with rfl | hg
      · omega
      · exact hp g hg

theorem changeHandler_of_all_within (files : List File) (h : ∀ f ∈ files, f.size ≤ maxSize) :
    changeHandler (some files) =
      .ok (if files = [] then []
           else [.log ["Selected files:", ", ".intercalate (files.map File.name)]]) := by
  have hl : changeLoop files = none := (changeLoop_eq_none_iff files).mpr h
  cases files with
  | nil => simp [changeHandler, arrayFrom, changeLoop]
  | cons f rest => simp [changeHandler, arrayFrom, hl]

theorem changeHandler_of_oversized (pre post : List File) (file : File)
    (hpre : ∀ g ∈ pre, g.size ≤ maxSize) (hfile : file.size > maxSize) :
    changeHandler (some (pre ++ file :: post)) =
      .ok [.alert (tooLargeMessage file.name), .setValue ""] := by
  simp [changeHandler, arrayFrom, changeLoop_append_oversized pre post file hpre hfile]

theorem submitLoop_append_blank (pre post : List Field) (field : Field) (i : Nat)
    (hpre : ∀ g ∈ pre, g.isFilled = true) (hfield : field.isBlank = true) :
    submitLoop i (pre ++ field :: post) =
      .ok [.alert requiredMessage, .preventDefault, .focus (i + pre.length)] := by
  induction pre generalizing i with
  | nil =>
    obtain ⟨v⟩ := field
    cases v <;> simp_all [submitLoop, valueTrim, Field.isBlank]
  | cons g rest ih =>
    have hg := hpre g (List.mem_cons_self _ _)
    have hrest : ∀ x ∈ rest, x.isFilled = true := fun x hx => hpre x (List.mem_cons_of_mem _ hx)
    obtain ⟨v⟩ := g
    cases v with
    | undefined => simp [Field.isFilled] at hg
    | num n => simp [Field.isFilled] at hg
    | str s =>
      simp only [Field.isFilled, decide_eq_true_eq] at hg
      simp only [List.cons_append, submitLoop, valueTrim, hg, if_false, List.length_cons]
      have e := ih (i + 1) hrest
      have hi : i + 1 + rest.length = i + (rest.length + 1) := by omega
      rw [hi] at e
      exact e

theorem submitLoop_of_all_filled (fields : List Field) (i : Nat)
    (h : ∀ g ∈ fields, g.isFilled = true) : submitLoop i fields = .ok [] := by
  induction fields generalizing i with
  | nil => simp [submitLoop]
  | cons g rest ih =>
    have hg := h g (List.mem_cons_self _ _)
    have hrest : ∀ x ∈ rest, x.isFilled = true := fun x hx => h x (List.mem_cons_of_mem _ hx)
    obtain ⟨v⟩ := g
    cases v with
    | undefined => simp [Field.isFilled] at hg
    | num n => simp [Field.isFilled] at hg
    | str s =>
      simp only [Field.isFilled, decide_eq_true_eq] at hg
      simp only [submitLoop, valueTrim, hg, if_false]
      exact ih (i + 1) hrest

theorem filled_or_blank_of_string (field : Field) (h : field.hasStringValue = true) :
    field.isFilled = true ∨ field.isBlank = true := by
  obtain ⟨v⟩ := field
  cases v with
  | undefined => simp [Field.hasStringValue] at h
  | num n => simp [Field.hasStringValue] at h
  | str s =>
    by_cases hs : jsTrim s = ""
    · right; simp [Field.isBlank, hs]
    · left; simp [Field.isFilled, hs]

theorem exists_first_blank (fields : List Field)
    (hs : ∀ f ∈ fields, f.hasStringValue = true) (h : ∃ f ∈ fields, f.isBlank = true) :
    ∃ pre field post, fields = pre ++ field :: post ∧ (∀ g ∈ pre, g.isFilled = true) ∧
      field.isBlank = true := by
  induction fields with
  | nil => obtain ⟨f, hf, _⟩ := h; cases hf
  | cons f rest ih =>
    rcases filled_or_blank_of_string f (hs f (List.mem_cons_self _ _)) with hf | hf
    · have hne : ¬ f.isBlank = true := by
        obtain ⟨v⟩ := f
        cases v <;> simp_all [Field.isFilled, Field.isBlank]
      have hrest : ∃ x ∈ rest, x.isBlank = true := by
        obtain ⟨x, hx, hxs⟩ := h
        rcases List.mem_cons.mp hx with rfl | hx
        · exact absurd hxs hne
        · exact ⟨x, hx, hxs⟩
      obtain ⟨pre, field, post, he, hp, hb⟩ :=
        ih (fun x hx => hs x (List.mem_cons_of_mem _ hx)) hrest
      refine ⟨f :: pre, field, post, by simp [he], ?_, hb⟩
      intro g hg
      rcases List.mem_cons.mp hg with rfl | hg
      · exact hf
      · exact hp g hg
    · exact ⟨[], f, rest, rfl, by simp, hf⟩

theorem rejected_changeHandler_iff (files : List File) :
    rejected (changeHandler (some files)) = true ↔ ∃ f ∈ files, f.size > maxSize := by
  constructor
  · intro hr
    by_contra hne
    have hall : ∀ f ∈ files, f.size ≤ maxSize := by
      intro f hf
      by_contra hc
      exact hne ⟨f, hf, by omega⟩
    rw [changeHandler_of_all_within files hall] at hr
    by_cases hnil : files = [] <;> simp [hnil, rejected, Effect.isAlert] at hr
  · intro h
    obtain ⟨pre, file, post, he, hp, hs⟩ := exists_first_oversized files h
    rw [he, changeHandler_of_oversized pre post file hp hs]
    simp [rejected, Effect.isAlert, Effect.isSetValue]

theorem lt_maxFileSize_iff (files : List File) (n : Nat) :
    n < maxFileSize files ↔ ∃ k ∈ files.map File.size, n < k := by
  induction files with
  | nil => simp [maxFileSize]
  | cons f rest ih =>
    have hm : maxFileSize (f :: rest) = max f.size (maxFileSize rest) := rfl
    rw [hm, lt_max_iff, ih]
    simp

theorem rejected_changeHandler_iff_sizes (files : List File) :
    rejected (changeHandler (some files)) = true ↔ ∃ k ∈ files.map File.size, k > maxSize := by
  rw [rejected_changeHandler_iff]
  simp

/-! ## Upload size guard: the claims -/

/-- C1: whenever some selected file is larger than 16,777,216 bytes, the change handler
performs exactly two effects, in this order: one `alert` whose text is built from the
name of the first file in list order that is over the limit (every file before it is
within the limit), and the assignment of the empty string to the input's value. -/
theorem change_rejects_naming_first_oversized (files : List File)
    (h : ∃ f ∈ files, f.size > 16777216) :
    ∃ pre file post, files = pre ++ file :: post ∧ (∀ g ∈ pre, g.size ≤ 16777216) ∧
      file.size > 16777216 ∧
      changeHandler (some files) =
        .ok [.alert ("File " ++ file.name ++ " is too large. Maximum size is 16MB."),
             .setValue ""] := by
  obtain ⟨pre, file, post, he, hp, hs⟩ := exists_first_oversized files h
  refine ⟨pre, file, post, he, hp, hs, ?_⟩
  rw [he]
  exact changeHandler_of_oversized pre post file hp hs

theorem change_rejects_naming_first_oversized_witness :
    (∃ f ∈ [File.mk "a.txt" 5, File.mk "b.bin" 16777217, File.mk "c.bin" 20000000],
        f.size > 16777216) ∧
    ∃ pre file post,
      [File.mk "a.txt" 5, File.mk "b.bin" 16777217, File.mk "c.bin" 20000000] =
        pre ++ file :: post ∧ (∀ g ∈ pre, g.size ≤ 16777216) ∧ file.size > 16777216 ∧
      changeHandler (some [File.mk "a.txt" 5, File.mk "b.bin" 16777217,
          File.mk "c.bin" 20000000]) =
        .ok [.alert ("File " ++ file.name ++ " is too large. Maximum size is 16MB."),
             .setValue ""] :=
  ⟨by decide, change_rejects_naming_first_oversized _ (by decide)⟩

/-- C2: when every selected file has size at most 16,777,216 (the empty selection
included), the change handler completes and none of its effects is an `alert` or an
assignment to the input's value. -/
theorem change_accepts_within_limit (files : List File)
    (h : ∀ f ∈ files, f.size ≤ 16777216) :
    ∃ effects, changeHandler (some files) = .ok effects ∧
      ∀ e ∈ effects, e.isAlert = false ∧ e.isSetValue = false := by
  refine ⟨_, changeHandler_of_all_within files h, ?_⟩
  intro e he
  by_cases hnil : files = []
  · simp [hnil] at he
  · simp only [hnil, if_false, List.mem_singleton] at he
    subst he
    exact ⟨rfl, rfl⟩

theorem change_accepts_within_limit_witness :
    (∀ f ∈ [File.mk "a.txt" 5, File.mk "b.bin" 16777216], f.size ≤ 16777216) ∧
    ∃ effects, changeHandler (some [File.mk "a.txt" 5, File.mk "b.bin" 16777216]) =
        .ok effects ∧
      ∀ e ∈ effects, e.isAlert = false ∧ e.isSetValue = false :=
  ⟨by decide, change_accepts_within_limit _ (by decide)⟩

/-- C6: `maxSize` is 16,777,216 and the test is strict: a single file of exactly
16,777,216 bytes is accepted (the only effect is the log line), and a single file
`b.txt` of 16,777,217 bytes gives an `alert` whose text contains `b.txt`, followed by
the clearing of the input's value. -/
theorem change_boundary :
    maxSize = 16777216 ∧
    changeHandler (some [File.mk "a.txt" 16777216]) =
      .ok [.log ["Selected files:", "a.txt"]] ∧
    changeHandler (some [File.mk "b.txt" 16777217]) =
      .ok [.alert ("File " ++ "b.txt" ++ " is too large. Maximum size is 16MB."),
           .setValue ""] := by
  decide

/-- C8: when no selected file exceeds the limit, the change handler performs no effect
for the empty selection and, for a non-empty one, exactly one effect: the call
`console.log('Selected files:', names)` with the names joined by `", "` in selection
order. -/
theorem change_logs_accepted_names (files : List File)
    (h : ∀ f ∈ files, f.size ≤ 16777216) :
    (files = [] → changeHandler (some files) = .ok []) ∧
    (files ≠ [] → changeHandler (some files) =
      .ok [.log ["Selected files:", ", ".intercalate (files.map File.name)]]) := by
  rw [changeHandler_of_all_within files h]
  constructor
  · intro hnil; simp [hnil]
  · intro hne; simp [hne]

theorem change_logs_accepted_names_witness :
    (∀ f ∈ [File.mk "a.txt" 5, File.mk "b.bin" 16777216], f.size ≤ 16777216) ∧
    changeHandler (some [File.mk "a.txt" 5, File.mk "b.bin" 16777216]) =
      .ok [.log ["Selected files:", "a.txt, b.bin"]] :=
  ⟨by decide, (change_logs_accepted_names _ (by decide)).2 (by decide)⟩

/-- C9: whenever some selected file is larger than 16,777,216 bytes, none of the change
handler's effects is a `console.log` call, and the effects are those of the handler on
the selection cut just after the first oversized file. -/
theorem change_rejection_aborts (files : List File)
    (h : ∃ f ∈ files, f.size > 16777216) :
    ∃ pre file post effects, files = pre ++ file :: post ∧
      (∀ g ∈ pre, g.size ≤ 16777216) ∧ file.size > 16777216 ∧
      changeHandler (some files) = .ok effects ∧
      (∀ e ∈ effects, e.isLog = false) ∧
      changeHandler (some (pre ++ [file])) = .ok effects := by
  obtain ⟨pre, file, post, he, hp, hs⟩ := exists_first_oversized files h
  refine ⟨pre, file, post, [.alert (tooLargeMessage file.name), .setValue ""],
    he, hp, hs, ?_, ?_, ?_⟩
  · rw [he]
    exact changeHandler_of_oversized pre post file hp hs
  · intro e hmem
    simp only [List.mem_cons, List.mem_singleton, List.not_mem_nil, or_false] at hmem
    rcases hmem with rfl | rfl <;> rfl
  · exact changeHandler_of_oversized pre [] file hp hs

theorem change_rejection_aborts_witness :
    (∃ f ∈ [File.mk "a.txt" 5, File.mk "b.bin" 16777217, File.mk "c.txt" 7],
        f.size > 16777216) ∧
    ∃ pre file post effects,
      [File.mk "a.txt" 5, File.mk "b.bin" 16777217, File.mk "c.txt" 7] =
        pre ++ file :: post ∧
      (∀ g ∈ pre, g.size ≤ 16777216) ∧ file.size > 16777216 ∧
      changeHandler (some [File.mk "a.txt" 5, File.mk "b.bin" 16777217,
          File.mk "c.txt" 7]) = .ok effects ∧
      (∀ e ∈ effects, e.isLog = false) ∧
      changeHandler (some (pre ++ [file])) = .ok effects :=
  ⟨by decide, change_rejection_aborts _ (by decide)⟩

/-- C10: the change handler rejects a selection (notifies and clears) exactly when the
largest size in it exceeds 16,777,216; so the decision is the same for every
permutation of the selection and for every selection with the same sizes under other
names. -/
theorem change_decision_depends_on_sizes (files : List File) :
    (rejected (changeHandler (some files)) = true ↔ maxFileSize files > 16777216) ∧
    (∀ other : List File, other.Perm files →
      rejected (changeHandler (some other)) = rejected (changeHandler (some files))) ∧
    (∀ other : List File, other.map File.size = files.map File.size →
      rejected (changeHandler (some other)) = rejected (changeHandler (some files))) := by
  have key : ∀ a b : List File, (a.map File.size).Perm (b.map File.size) →
      rejected (changeHandler (some a)) = rejected (changeHandler (some b)) := by
    intro a b hab
    rw [Bool.eq_iff_iff, rejected_changeHandler_iff_sizes, rejected_changeHandler_iff_sizes]
    constructor
    · rintro ⟨k, hk, hlt⟩; exact ⟨k, hab.mem_iff.mp hk, hlt⟩
    · rintro ⟨k, hk, hlt⟩; exact ⟨k, hab.mem_iff.mpr hk, hlt⟩
  refine ⟨?_, ?_, ?_⟩
  · rw [rejected_changeHandler_iff_sizes]
    exact (lt_maxFileSize_iff files 16777216).symm
  · intro other hperm
    exact key other files (hperm.map _)
  · intro other hsizes
    exact key other files (by rw [hsizes])

theorem change_decision_depends_on_sizes_witness :
    [File.mk "b.bin" 16777217, File.mk "a.txt" 5].Perm
      [File.mk "a.txt" 5, File.mk "b.bin" 16777217] ∧
    rejected (changeHandler (some [File.mk "b.bin" 16777217, File.mk "a.txt" 5])) =
      rejected (changeHandler (some [File.mk "a.txt" 5, File.mk "b.bin" 16777217])) :=
  ⟨List.Perm.swap _ _ _,
   (change_decision_depends_on_sizes [File.mk "a.txt" 5, File.mk "b.bin" 16777217]).2.1 _
     (List.Perm.swap _ _ _)⟩

/-! ## Required-field guard: the claims -/

/-- C3, as stated, fails: a form whose `[required]` elements are a `div` (no `value`)
followed by an empty input contains a field that is empty once trimmed, yet the submit
handler throws at the `div` and performs no effect: no `preventDefault`, no `alert`,
no `focus`. -/
theorem submit_throws_before_blank :
    (∃ f ∈ [Field.mk .undefined, Field.mk (.str "")], f.isBlank = true) ∧
    submitHandler [Field.mk .undefined, Field.mk (.str "")] = .error .typeError := by
  decide

/-- C3, amended: when some required field is empty once trimmed and every field before
it in document order carries a string value, the submit handler performs exactly three
effects, in this order: one `alert` with the fixed message, `preventDefault`, and
`focus` on the first field in document order whose trimmed value is empty (every field
before it is non-empty once trimmed). -/
theorem submit_blocks_on_first_blank (fields : List Field)
    (h : ∃ before blank after, fields = before ++ blank :: after ∧
      (∀ g ∈ before, g.hasStringValue = true) ∧ blank.isBlank = true) :
    ∃ pre field post, fields = pre ++ field :: post ∧ (∀ g ∈ pre, g.isFilled = true) ∧
      field.isBlank = true ∧
      submitHandler fields =
        .ok [.alert "Please fill in all required fields.", .preventDefault,
             .focus pre.length] := by
  obtain ⟨before, blank, after, hf, hstr, hblank⟩ := h
  have hb : blank.hasStringValue = true := by
    obtain ⟨v⟩ := blank
    cases v <;> simp_all [Field.isBlank, Field.hasStringValue]
  have hs : ∀ f ∈ before ++ [blank], f.hasStringValue = true := by
    intro f hmem
    rcases List.mem_append.mp hmem with h1 | h1
    · exact hstr f h1
    · rw [List.mem_singleton.mp h1]; exact hb
  obtain ⟨pre, field, post, he, hp, hbl⟩ :=
    exists_first_blank (before ++ [blank]) hs ⟨blank, by simp, hblank⟩
  have hfields : fields = pre ++ field :: (post ++ after) := by
    have h1 : fields = (before ++ [blank]) ++ after := by simp [hf]
    rw [h1, he]
    simp
  refine ⟨pre, field, post ++ after, hfields, hp, hbl, ?_⟩
  have e := submitLoop_append_blank pre (post ++ after) field 0 hp hbl
  rw [Nat.zero_add] at e
  rw [hfields]
  exact e

theorem submit_blocks_on_first_blank_witness :
    (∃ before blank after,
      [Field.mk (.str "Ada"), Field.mk (.str " \t"), Field.mk (.str ""),
        Field.mk .undefined] = before ++ blank :: after ∧
      (∀ g ∈ before, g.hasStringValue = true) ∧ blank.isBlank = true) ∧
    ∃ pre field post,
      [Field.mk (.str "Ada"), Field.mk (.str " \t"), Field.mk (.str ""),
        Field.mk .undefined] = pre ++ field :: post ∧
      (∀ g ∈ pre, g.isFilled = true) ∧ field.isBlank = true ∧
      submitHandler [Field.mk (.str "Ada"), Field.mk (.str " \t"), Field.mk (.str ""),
          Field.mk .undefined] =
        .ok [.alert "Please fill in all required fields.", .preventDefault,
             .focus pre.length] :=
  ⟨⟨[Field.mk (.str "Ada"), Field.mk (.str " \t")], Field.mk (.str ""),
      [Field.mk .undefined], rfl, by decide, by decide⟩,
   submit_blocks_on_first_blank _
    ⟨[Field.mk (.str "Ada"), Field.mk (.str " \t")], Field.mk (.str ""),
      [Field.mk .undefined], rfl, by decide, by decide⟩⟩

/-- C4: when every required field holds a string that is non-empty once trimmed (a form
without required fields included), the submit handler completes with no effect at all:
no `preventDefault`, no `alert`, no `focus`. -/
theorem submit_passes_when_all_filled (fields : List Field)
    (h : ∀ f ∈ fields, f.isFilled = true) : submitHandler fields = .ok [] :=
  submitLoop_of_all_filled fields 0 h

theorem submit_passes_when_all_filled_witness :
    (∀ f ∈ [Field.mk (.str "Ada"), Field.mk (.str " x ")], f.isFilled = true) ∧
    submitHandler [Field.mk (.str "Ada"), Field.mk (.str " x ")] = .ok [] :=
  ⟨by decide, submit_passes_when_all_filled _ (by decide)⟩

/-! ## Textarea autosizer: the claim -/

/-- C7: after the input handler the textarea's `style.height` is the `scrollHeight`
measured with the height reset to `auto`, followed by `px`; the content is untouched,
and running the handler a second time gives the same element as running it once. -/
theorem textarea_height_is_scroll_extent (scrollHeight : Textarea → Nat) (t : Textarea) :
    (textareaInputHandler scrollHeight t).styleHeight =
        toString (scrollHeight { t with styleHeight := "auto" }) ++ "px" ∧
    (textareaInputHandler scrollHeight t).value = t.value ∧
    textareaInputHandler scrollHeight (textareaInputHandler scrollHeight t) =
      textareaInputHandler scrollHeight t :=
  ⟨rfl, rfl, rfl⟩

/-! ## Completion of the handlers -/

/-- C5, as stated, fails: on a form whose only `[required]` element has no `value`
property the submit handler throws a `TypeError`, and so does the change handler when
the target's `files` is `null`. -/
theorem handlers_can_throw :
    submitHandler [Field.mk .undefined] = .error .typeError ∧
    changeHandler none = .error .typeError := by
  decide

/-- C5, amended: the submit handler runs to completion whenever every element matched by
`[required]` carries a string `value`, the change handler whenever the target's `files`
is a file list (whatever the names and sizes), and the textarea handler always. -/
theorem handlers_complete (fields : List Field) (files : List File)
    (scrollHeight : Textarea → Nat) (t : Textarea)
    (hs : ∀ f ∈ fields, f.hasStringValue = true) :
    (∃ effects, submitHandler fields = .ok effects) ∧
    (∃ effects, changeHandler (some files) = .ok effects) ∧
    (∃ t1, textareaInputHandler scrollHeight t = t1) := by
  refine ⟨?_, ?_, ⟨_, rfl⟩⟩
  · by_cases hb : ∃ f ∈ fields, f.isBlank = true
    · obtain ⟨pre, field, post, he, hp, hbl⟩ := exists_first_blank fields hs hb
      have e := submitLoop_append_blank pre post field 0 hp hbl
      rw [← he] at e
      exact ⟨_, e⟩
    · refine ⟨[], submitLoop_of_all_filled fields 0 ?_⟩
      intro f hf
      rcases filled_or_blank_of_string f (hs f hf) with h1 | h1
      · exact h1
      · exact absurd ⟨f, hf, h1⟩ hb
  · by_cases ho : ∃ f ∈ files, f.size > maxSize
    · obtain ⟨pre, file, post, he, hp, hsz⟩ := exists_first_oversized files ho
      rw [he]
      exact ⟨_, changeHandler_of_oversized pre post file hp hsz⟩
    · refine ⟨_, changeHandler_of_all_within files ?_⟩
      intro f hf
      by_contra hc
      exact ho ⟨f, hf, by omega⟩

theorem handlers_complete_witness :
    (∀ f ∈ [Field.mk (.str "Ada"), Field.mk (.str "")], f.hasStringValue = true) ∧
    (∃ effects, submitHandler [Field.mk (.str "Ada"), Field.mk (.str "")] = .ok effects) ∧
    (∃ effects, changeHandler (some [File.mk "b.bin" 16777217]) = .ok effects) ∧
    (∃ t1, textareaInputHandler (fun x => x.value.length) (Textarea.mk "hello" "12px")
      = t1) :=
  ⟨by decide, handlers_complete _ _ _ _ (by decide)⟩

end AppJs
